import Mathlib

/-!
Verification development for the ArgParser repository
(src/include/ArgParser/ArgParser.hpp, src/src/ArgParser/ArgParser.cpp).

The embedding is a shallow one:

* `OptionDef` mirrors `ArgParser::OptionDef` (full name, short alias,
  description, expects-value flag).
* `construct` mirrors the `ArgParser::ArgParser` constructor body
  (ArgParser.cpp lines 36-61): the first definition that has a later
  definition with the same short alias produces a configuration error
  carrying the shared alias and both full names.
* `classify` and `parseLoop` mirror `ArgParser::parse`
  (ArgParser.cpp lines 63-162).  `argv` tokens are modelled as Lean
  `String`s; C character reads `argv[i][k]` are modelled by `charAt`,
  which returns the NUL character `Char.ofNat 0` past the end of the
  token, exactly as reading a C string's terminator does.  The check
  `argv[i][2] == '\0'` on a token whose first two characters are `--`
  is modelled as `cs.drop 2 = []` (for NUL-free tokens, the only ones
  representable as C strings, the two are equivalent).
* The result record tracks the three output collections
  (`m_options` as an association list with overwrite-on-store to model
  `std::map::operator[]`, `m_arguments`, `m_remaining_arguments`)
  plus two pieces of bookkeeping used only by the accounting theorems:
  `optionTokens`, the number of input tokens consumed as option tokens
  or option values, and `sepConsumed`, whether the bare `--` separator
  token was consumed.
* The typed accessors mirror `ArgParser::ValueProxy`
  (ArgParser.hpp lines 159-253).  `std::from_chars` on an integer type
  is modelled by `fromCharsVal`: an optional minus sign (signed types
  only) followed by a maximal nonempty digit run; no digits is
  `invalid_argument`; the parsed mathematical value and the unconsumed
  rest are returned, and the caller compares against the type's range
  (`result_out_of_range` leaves the zero-initialised result variable
  unmodified, which `as<Integer>` does not check).
-/

namespace ArgParse

/-- Mirror of `ArgParser::OptionDef`: full name, short alias, description,
and the expects-a-value flag (ArgParser.hpp lines 45-69). -/
structure OptionDef where
  full_name : String
  short_name : Char
  description : String
  expect_value : Bool
deriving Repr, DecidableEq

/-- Registry lookup by full name: first definition whose full name matches
(ArgParser.cpp lines 98-105). -/
def findFull (defs : List OptionDef) (name : String) : Option OptionDef :=
  defs.find? (fun o => o.full_name == name)

/-- Registry lookup by short alias: first definition whose short alias
matches (ArgParser.cpp lines 132-139). -/
def findShort (defs : List OptionDef) (c : Char) : Option OptionDef :=
  defs.find? (fun o => o.short_name == c)

/-- The construction-time failure (`ConfigurationError` in the spec's
taxonomy): the shared short alias and the two conflicting full names, in
the order the constructor's message reports them (ArgParser.cpp 52-59). -/
structure ConfigErr where
  shared : Char
  first : String
  second : String
deriving Repr, DecidableEq

/-- The duplicate-short-alias scan of the constructor (ArgParser.cpp
lines 40-60): for each definition in order, search the remainder of the
list for one with the same short alias; report the first hit. -/
def findDup : List OptionDef → Option ConfigErr
  | [] => none
  | d :: rest =>
    match rest.find? (fun o => o.short_name == d.short_name) with
    | some o => some ⟨d.short_name, d.full_name, o.full_name⟩
    | none => findDup rest

/-- Mirror of the `ArgParser` constructor: store the definition list, but
fail with a configuration error when two definitions share a short alias
(ArgParser.cpp lines 36-61). -/
def construct (defs : List OptionDef) : Except ConfigErr (List OptionDef) :=
  match findDup defs with
  | some e => .error e
  | none => .ok defs

/-- Parse-time failures, mirroring the `ArgParserException` messages:
`unrecognized option '--name'`, `unrecognized option '-c'`,
`expected value for option '--name'`, `expected value for option '-c'`
(ArgParser.cpp lines 108, 122, 142, 151), and the typed-access failures
`missing required option --name`, `missing required argument at position
p` (1-based), `value is not a valid numeric value`
(ArgParser.hpp lines 182, 190, 215). -/
inductive ArgErr where
  | unrecognizedLong (name : String)
  | unrecognizedShort (c : Char)
  | missingValueLong (name : String)
  | missingValueShort (c : Char)
  | missingOption (name : String)
  | missingArgument (pos : Nat)
  | invalidNumeric (raw : String)
deriving Repr, DecidableEq

/-- The three output collections of `ArgParser::parse` plus bookkeeping:
`options` models `m_options` (a map, here an association list with
unique keys), `arguments` models `m_arguments`, `remaining` models
`m_remaining_arguments`; `optionTokens` counts input tokens consumed as
option tokens or as option values, and `sepConsumed` records whether a
bare `--` separator token was consumed. -/
structure ParseResult where
  options : List (String × String)
  arguments : List String
  remaining : List String
  optionTokens : Nat
  sepConsumed : Bool
deriving Repr, DecidableEq

/-- `std::map::operator[]` assignment: overwrite the entry if the key is
present, append it otherwise. -/
def mapStore : List (String × String) → String → String → List (String × String)
  | [], k, v => [(k, v)]
  | (k1, v1) :: rest, k, v =>
    if k1 == k then (k, v) :: rest else (k1, v1) :: mapStore rest k v

/-- `std::map` lookup on the association list produced by `mapStore`. -/
def mapFind : List (String × String) → String → Option String
  | [], _ => none
  | (k1, v1) :: rest, k => if k1 == k then some v1 else mapFind rest k

/-- Read character `n` of a token, as C string indexing does: past the
end of the token this is the NUL terminator. -/
def charAt (cs : List Char) (n : Nat) : Char :=
  cs.getD n (Char.ofNat 0)

/-- `strchr(begin, '=')` splitting of a long-option body
(ArgParser.cpp lines 91-96): the characters before the first `=`, and,
when an `=` is present, the characters after it. -/
def splitEq : List Char → List Char × Option (List Char)
  | [] => ([], none)
  | c :: rest =>
    if c = '=' then ([], some rest)
    else
      let p := splitEq rest
      (c :: p.1, p.2)

/-- Outcome of classifying one token against the registry: the `--`
separator, a recorded option (key, stored value, and whether the next
input token was consumed as the value), a positional argument, or a
parse error. -/
inductive Step where
  | sep
  | opt (key value : String) (consumedNext : Bool)
  | pos
  | err (e : ArgErr)
deriving Repr, DecidableEq

/-- The next-token value rule shared by the long and short branches
(ArgParser.cpp lines 117-122 and 145-151): consume the next token as the
option's value only when it exists and its first character is not `-`;
otherwise fail with the given missing-value error. -/
def valueFromNext (next? : Option String) (d : OptionDef) (e : ArgErr) : Step :=
  match next? with
  | some v => if charAt v.data 0 = '-' then .err e else .opt d.full_name v true
  | none => .err e

/-- The short-option branch of `ArgParser::parse` (ArgParser.cpp lines
129-155), for the short alias `c` read from the token's second
character: look the alias up, consume the next token as the value when
one is expected, and record under the definition's full name. -/
def shortStep (defs : List OptionDef) (c : Char) (next? : Option String) : Step :=
  match findShort defs c with
  | none => .err (.unrecognizedShort c)
  | some d =>
    if d.expect_value then valueFromNext next? d (.missingValueShort c)
    else .opt d.full_name "" false

/-- The long-option branch of `ArgParser::parse` (ArgParser.cpp lines
91-125), for the token body after the leading `--`: split at the first
`=`, look the name up by full name, prefer an attached `=value`, fall
back to the next token, and store the empty string when no value is
expected (a superfluous attached value is silently discarded). -/
def longStep (defs : List OptionDef) (body : List Char) (next? : Option String) :
    Step :=
  match findFull defs (String.mk (splitEq body).1) with
  | none => .err (.unrecognizedLong (String.mk (splitEq body).1))
  | some d =>
    if d.expect_value then
      match (splitEq body).2 with
      | some v => .opt d.full_name (String.mk v) false
      | none => valueFromNext next? d (.missingValueLong (String.mk (splitEq body).1))
    else .opt d.full_name "" false

/-- One iteration of the classification loop of `ArgParser::parse`
(ArgParser.cpp lines 71-161), for the current token `tok` and the next
token `next?` (if any): a token whose first character is `-` and whose
second is `-` is the separator when it is exactly `--` and remaining
arguments are accepted, and a long option otherwise; a token whose
first character is `-` and whose second is anything else (including the
NUL terminator of the bare token `-`) is a short option determined
solely by that second character; everything else is positional. -/
def classify (defs : List OptionDef) (accept : Bool) (tok : String)
    (next? : Option String) : Step :=
  if charAt tok.data 0 = '-' then
    if charAt tok.data 1 = '-' then
      if tok.data.drop 2 = [] ∧ accept = true then .sep
      else longStep defs (tok.data.drop 2) next?
    else shortStep defs (charAt tok.data 1) next?
  else .pos

/-- The classification loop of `ArgParser::parse` over the tokens after
the executable path: on the separator, move the rest of the input
verbatim into `remaining` and stop; on an error, abort the whole parse;
on a positional, append it; on an option, record it under the
definition's full name and skip its consumed value token if any.  (The
consumed-value case with an empty rest cannot arise, since a value is
only consumed from an existing next token; returning the final state
there keeps the function total and structurally recursive.) -/
def parseLoop (defs : List OptionDef) (accept : Bool) :
    List String → ParseResult → Except ArgErr ParseResult
  | [], st => .ok st
  | tok :: rest, st =>
    match classify defs accept tok rest.head? with
    | .sep => .ok { st with remaining := rest, sepConsumed := true }
    | .err e => .error e
    | .pos =>
      parseLoop defs accept rest { st with arguments := st.arguments ++ [tok] }
    | .opt k v false =>
      parseLoop defs accept rest
        { st with options := mapStore st.options k v
                  optionTokens := st.optionTokens + 1 }
    | .opt k v true =>
      match rest with
      | [] =>
        .ok { st with options := mapStore st.options k v
                      optionTokens := st.optionTokens + 2 }
      | _ :: t =>
        parseLoop defs accept t
          { st with options := mapStore st.options k v
                    optionTokens := st.optionTokens + 2 }

/-- The empty state `parse` starts from: all three collections cleared
(ArgParser.cpp lines 65-67). -/
def initResult : ParseResult :=
  ⟨[], [], [], 0, false⟩

/-- `ArgParser::parse(argc, argv, accept_remaining_arguments)`: token 0
is stored as the executable path and excluded from classification
(ArgParser.cpp line 69); the loop runs over the rest. -/
def parse (defs : List OptionDef) (accept : Bool) (argv : List String) :
    Except ArgErr ParseResult :=
  parseLoop defs accept argv.tail initResult

/-- `m_executable_path` after `parse`: the first input token. -/
def executablePath (argv : List String) : String :=
  argv.headD ""

/-- `ValueProxy::exists` for a string key: the option table contains the
key (ArgParser.hpp lines 165-173). -/
def existsKey (r : ParseResult) (key : String) : Bool :=
  (mapFind r.options key).isSome

/-- `ValueProxy::exists` for an integral index: the index is within the
positional-argument sequence (ArgParser.hpp lines 165-173). -/
def existsIdx (r : ParseResult) (idx : Nat) : Bool :=
  idx < r.arguments.length

/-- `ValueProxy::as` at a string-like type, string key: the raw stored
string, or `missing required option` when absent
(ArgParser.hpp lines 187-198). -/
def asStringKey (r : ParseResult) (key : String) : Except ArgErr String :=
  match mapFind r.options key with
  | none => .error (.missingOption key)
  | some v => .ok v

/-- `ValueProxy::as` at a string-like type, integral index: the
positional token, or `missing required argument at position idx+1`
(1-based, as the message reports) when out of bounds
(ArgParser.hpp lines 179-184). -/
def asStringIdx (r : ParseResult) (idx : Nat) : Except ArgErr String :=
  match r.arguments.get? idx with
  | none => .error (.missingArgument (idx + 1))
  | some v => .ok v

/-- Numeric value of a run of decimal digit characters. -/
def digitsToNat (ds : List Char) : Nat :=
  ds.foldl (fun a c => a * 10 + (c.toNat - 48)) 0

/-- `std::from_chars` on an integer type, base 10: an optional leading
minus sign (signed types only) followed by a maximal nonempty run of
decimal digits.  `none` is `errc::invalid_argument` (no digits matched);
otherwise the mathematical value of the matched pattern and the
unmatched rest of the string are returned (range checking is the
caller's business, `errc::result_out_of_range` leaves the output
variable unmodified). -/
def fromCharsVal (signed : Bool) (cs : List Char) : Option (Int × List Char) :=
  match cs with
  | '-' :: rest =>
    if signed then
      let ds := rest.takeWhile Char.isDigit
      if ds = [] then none
      else some (-(digitsToNat ds : Int), rest.dropWhile Char.isDigit)
    else none
  | _ =>
    let ds := cs.takeWhile Char.isDigit
    if ds = [] then none
    else some ((digitsToNat ds : Int), cs.dropWhile Char.isDigit)

/-- The integer branch of `ValueProxy::as` applied to an already
retrieved raw string (ArgParser.hpp lines 201-218), for a target type of
the given signedness and range `[lo, hi]`: `invalid_argument` raises
`InvalidNumericValue(raw)`; otherwise the result variable, which was
zero-initialised, holds the parsed value only when it fits — on
`result_out_of_range` (or on a value followed by trailing garbage, which
`from_chars` reports as success) the error code is never inspected. -/
def convertInt (signed : Bool) (lo hi : Int) (s : String) : Except ArgErr Int :=
  match fromCharsVal signed s.data with
  | none => .error (.invalidNumeric s)
  | some p => if lo ≤ p.1 ∧ p.1 ≤ hi then .ok p.1 else .ok 0

/-- `ValueProxy::as` at an integer type, string key: retrieve the raw
string, then convert (ArgParser.hpp lines 201-218). -/
def asIntKey (r : ParseResult) (key : String) (signed : Bool) (lo hi : Int) :
    Except ArgErr Int :=
  match asStringKey r key with
  | .error e => .error e
  | .ok s => convertInt signed lo hi s

/-- `ValueProxy::as` at an integer type, integral index. -/
def asIntIdx (r : ParseResult) (idx : Nat) (signed : Bool) (lo hi : Int) :
    Except ArgErr Int :=
  match asStringIdx r idx with
  | .error e => .error e
  | .ok s => convertInt signed lo hi s

/-- `ValueProxy::as` at `bool`, string key: exactly `exists()`
(ArgParser.hpp lines 220-225). -/
def asBoolKey (r : ParseResult) (key : String) : Bool :=
  existsKey r key

/-- `ValueProxy::as` at `bool`, integral index. -/
def asBoolIdx (r : ParseResult) (idx : Nat) : Bool :=
  existsIdx r idx

/-- `ValueProxy::as(default_value)` at a string-like type, string key:
`exists() ? as<T>() : default_value` (ArgParser.hpp lines 227-232). -/
def asStringKeyD (r : ParseResult) (key : String) (dflt : String) :
    Except ArgErr String :=
  if existsKey r key then asStringKey r key else .ok dflt

/-- `ValueProxy::as(default_value)` at an integer type, string key. -/
def asIntKeyD (r : ParseResult) (key : String) (signed : Bool) (lo hi : Int)
    (dflt : Int) : Except ArgErr Int :=
  if existsKey r key then asIntKey r key signed lo hi else .ok dflt

/-- `ValueProxy::as(default_value)` at `bool`, string key. -/
def asBoolKeyD (r : ParseResult) (key : String) (dflt : Bool) : Bool :=
  if existsKey r key then asBoolKey r key else dflt

/-- `ValueProxy::as(default_value)` at a string-like type, integral
index. -/
def asStringIdxD (r : ParseResult) (idx : Nat) (dflt : String) :
    Except ArgErr String :=
  if existsIdx r idx then asStringIdx r idx else .ok dflt

/-- `ValueProxy::as(default_value)` at an integer type, integral index. -/
def asIntIdxD (r : ParseResult) (idx : Nat) (signed : Bool) (lo hi : Int)
    (dflt : Int) : Except ArgErr Int :=
  if existsIdx r idx then asIntIdx r idx signed lo hi else .ok dflt

/-- `ValueProxy::as(default_value)` at `bool`, integral index. -/
def asBoolIdxD (r : ParseResult) (idx : Nat) (dflt : Bool) : Bool :=
  if existsIdx r idx then asBoolIdx r idx else dflt

/-- Written from the spec's words, for stating the integer-access claims:
a string is a valid base-10 integer of the target type when the whole
string is an optional minus sign (signed targets only) followed by at
least one digit, and its value lies in the target's range. -/
def isValidInt (signed : Bool) (lo hi : Int) (s : String) : Bool :=
  match fromCharsVal signed s.data with
  | some (v, []) => decide (lo ≤ v ∧ v ≤ hi)
  | _ => false

/-- The token-accounting sum named by claim C1: tokens consumed as
options or option values, plus positional tokens, plus remaining tokens,
plus one for the executable path. -/
def claimSum (r : ParseResult) : Nat :=
  r.optionTokens + r.arguments.length + r.remaining.length + 1

end ArgParse

namespace ArgParse

/-- A string is its list of characters. -/
lemma mk_data (s : String) : String.mk s.data = s := by
  cases s
  rfl

/-- A nonempty string has a nonempty character list. -/
lemma data_ne_nil (s : String) (h : s ≠ "") : s.data ≠ [] := by
  intro hd
  have h2 : String.mk s.data = String.mk [] := by rw [hd]
  rw [mk_data] at h2
  exact h h2

/-- `splitEq` on a list without `=` returns the whole list and no value. -/
lemma splitEq_no_eq (cs : List Char) (h : '=' ∉ cs) : splitEq cs = (cs, none) := by
  induction cs with
  | nil => rfl
  | cons c t ih =>
    have hc : c ≠ '=' := fun hcc => h (hcc ▸ List.mem_cons_self c t)
    have ht : '=' ∉ t := fun hm => h (List.mem_cons_of_mem c hm)
    simp [splitEq, hc, ih ht]

/-- `splitEq` splits at the first `=`. -/
lemma splitEq_append (nm rest : List Char) (h : '=' ∉ nm) :
    splitEq (nm ++ '=' :: rest) = (nm, some rest) := by
  induction nm with
  | nil => simp [splitEq]
  | cons c t ih =>
    have hc : c ≠ '=' := fun hcc => h (hcc ▸ List.mem_cons_self c t)
    have ht : '=' ∉ t := fun hm => h (List.mem_cons_of_mem c hm)
    simp [splitEq, hc, ih ht]

/-- The token `--` classifies as the separator whenever remaining
arguments are accepted, whatever the registry and the next token. -/
lemma classify_sepTok (defs : List OptionDef) (next? : Option String) :
    classify defs true "--" next? = .sep := rfl

/-- Character lists that pass the separator test are exactly `--`. -/
lemma sep_shape (cs : List Char) (h0 : charAt cs 0 = '-')
    (h1 : charAt cs 1 = '-') (h2 : cs.drop 2 = []) : cs = ['-', '-'] := by
  match cs, h0, h1, h2 with
  | [], h0, _, _ =>
    have hz : charAt [] 0 = Char.ofNat 0 := rfl
    rw [hz] at h0
    exact absurd h0 (by decide)
  | [a], _, h1, _ =>
    have hz : charAt [a] 1 = Char.ofNat 0 := rfl
    rw [hz] at h1
    exact absurd h1 (by decide)
  | a :: b :: t, h0, h1, h2 =>
    have ha : charAt (a :: b :: t) 0 = a := rfl
    have hb : charAt (a :: b :: t) 1 = b := rfl
    rw [ha] at h0
    rw [hb] at h1
    have ht : t = [] := h2
    simp [h0, h1, ht]

/-- `valueFromNext` never produces the separator. -/
lemma valueFromNext_ne_sep (next? : Option String) (d : OptionDef) (e : ArgErr) :
    valueFromNext next? d e ≠ .sep := by
  cases next? with
  | none => simp [valueFromNext]
  | some v =>
    by_cases hv : charAt v.data 0 = '-' <;> simp [valueFromNext, hv]

/-- `shortStep` never produces the separator. -/
lemma shortStep_ne_sep (defs : List OptionDef) (c : Char) (next? : Option String) :
    shortStep defs c next? ≠ .sep := by
  cases hf : findShort defs c with
  | none => simp [shortStep, hf]
  | some d =>
    by_cases he : d.expect_value <;>
      simp [shortStep, hf, he, valueFromNext_ne_sep]

/-- `longStep` never produces the separator. -/
lemma longStep_ne_sep (defs : List OptionDef) (body : List Char)
    (next? : Option String) : longStep defs body next? ≠ .sep := by
  cases hf : findFull defs (String.mk (splitEq body).1) with
  | none => simp [longStep, hf]
  | some d =>
    by_cases he : d.expect_value
    · cases ha : (splitEq body).2 with
      | none => simp [longStep, hf, he, ha, valueFromNext_ne_sep]
      | some v => simp [longStep, hf, he, ha]
    · simp [longStep, hf, he]

/-- Only the exact token `--`, with remaining arguments accepted,
classifies as the separator. -/
lemma classify_sep_inv (defs : List OptionDef) (accept : Bool) (tok : String)
    (next? : Option String) (h : classify defs accept tok next? = .sep) :
    accept = true ∧ tok = "--" := by
  unfold classify at h
  by_cases h0 : charAt tok.data 0 = '-'
  · rw [if_pos h0] at h
    by_cases h1 : charAt tok.data 1 = '-'
    · rw [if_pos h1] at h
      by_cases h2 : tok.data.drop 2 = [] ∧ accept = true
      · refine ⟨h2.2, ?_⟩
        rw [← mk_data tok, sep_shape tok.data h0 h1 h2.1]
      · rw [if_neg h2] at h
        exact absurd h (longStep_ne_sep _ _ _)
    · rw [if_neg h1] at h
      exact absurd h (shortStep_ne_sep _ _ _)
  · rw [if_neg h0] at h
    simp at h

/-- When `valueFromNext` consumes the next token, that token exists, is
the stored value, and does not begin with `-`. -/
lemma valueFromNext_consume (next? : Option String) (d : OptionDef) (e : ArgErr)
    (k v : String) (h : valueFromNext next? d e = .opt k v true) :
    next? = some v ∧ charAt v.data 0 ≠ '-' := by
  cases next? with
  | none => simp [valueFromNext] at h
  | some w =>
    by_cases hw : charAt w.data 0 = '-'
    · simp [valueFromNext, hw] at h
    · simp [valueFromNext, hw] at h
      obtain ⟨-, hv⟩ := h
      subst hv
      exact ⟨rfl, hw⟩

/-- When `shortStep` consumes the next token, that token exists, is the
stored value, and does not begin with `-`. -/
lemma shortStep_consume (defs : List OptionDef) (c : Char) (next? : Option String)
    (k v : String) (h : shortStep defs c next? = .opt k v true) :
    next? = some v ∧ charAt v.data 0 ≠ '-' := by
  cases hf : findShort defs c with
  | none => simp [shortStep, hf] at h
  | some d =>
    by_cases he : d.expect_value
    · rw [shortStep, hf] at h
      simp only [he, if_true] at h
      exact valueFromNext_consume _ _ _ _ _ h
    · simp [shortStep, hf, he] at h

/-- When `longStep` consumes the next token, that token exists, is the
stored value, and does not begin with `-`. -/
lemma longStep_consume (defs : List OptionDef) (body : List Char)
    (next? : Option String) (k v : String)
    (h : longStep defs body next? = .opt k v true) :
    next? = some v ∧ charAt v.data 0 ≠ '-' := by
  cases hf : findFull defs (String.mk (splitEq body).1) with
  | none => simp [longStep, hf] at h
  | some d =>
    by_cases he : d.expect_value
    · cases ha : (splitEq body).2 with
      | some w => simp [longStep, hf, he, ha] at h
      | none =>
        rw [longStep, hf] at h
        simp only [he, if_true, ha] at h
        exact valueFromNext_consume _ _ _ _ _ h
    · simp [longStep, hf, he] at h

/-- When classification consumes the next token as an option value, that
token exists, is the stored value, and does not begin with `-`. -/
lemma classify_consume (defs : List OptionDef) (accept : Bool) (tok : String)
    (next? : Option String) (k v : String)
    (h : classify defs accept tok next? = .opt k v true) :
    next? = some v ∧ charAt v.data 0 ≠ '-' := by
  unfold classify at h
  by_cases h0 : charAt tok.data 0 = '-'
  · rw [if_pos h0] at h
    by_cases h1 : charAt tok.data 1 = '-'
    · rw [if_pos h1] at h
      by_cases h2 : tok.data.drop 2 = [] ∧ accept = true
      · rw [if_pos h2] at h
        simp at h
      · rw [if_neg h2] at h
        exact longStep_consume _ _ _ _ _ h
    · rw [if_neg h1] at h
      exact shortStep_consume _ _ _ _ _ h
  · rw [if_neg h0] at h
    simp at h

end ArgParse

namespace ArgParse

/-- Accounting invariant of the classification loop: on success, the
final option-or-value token count, positional count, remaining count and
separator bit grow over the initial state by exactly the number of
processed tokens. -/
lemma parseLoop_count (defs : List OptionDef) (accept : Bool)
    (toks : List String) (st : ParseResult) (r : ParseResult)
    (hrem : st.remaining = []) (hsep : st.sepConsumed = false)
    (h : parseLoop defs accept toks st = .ok r) :
    r.optionTokens + r.arguments.length + r.remaining.length
      + (if r.sepConsumed then 1 else 0)
      = st.optionTokens + st.arguments.length + toks.length := by
  induction toks, st using parseLoop.induct defs accept with
  | case1 st =>
    simp only [parseLoop] at h
    cases h
    simp [hrem, hsep]
  | case2 tok rest st hcl =>
    simp only [parseLoop, hcl] at h
    cases h
    simp
    omega
  | case3 tok rest st e hcl =>
    simp only [parseLoop, hcl] at h
    cases h
  | case4 tok rest st hcl ih =>
    simp only [parseLoop, hcl] at h
    have := ih hrem hsep h
    simp at this
    simp [this]
    omega
  | case5 tok rest st k v hcl ih =>
    simp only [parseLoop, hcl] at h
    have := ih hrem hsep h
    simp at this
    simp [this]
    omega
  | case6 tok st k v hcl =>
    obtain ⟨hhd, -⟩ := classify_consume _ _ _ _ _ _ hcl
    simp at hhd
  | case7 tok st k v w t hcl ih =>
    simp only [parseLoop, hcl] at h
    have := ih hrem hsep h
    simp at this
    simp [this]
    omega

end ArgParse

namespace ArgParse

/-- Separator behaviour of the classification loop: when the input
splits as `l1 ++ "--" :: l2` with no earlier `--`, a successful parse
with remaining arguments accepted puts exactly `l2` (verbatim, in
order) into the remaining sequence, and the tokens classified as
options, option values or positionals are exactly the tokens of `l1`. -/
lemma parseLoop_sep (defs : List OptionDef) (l2 : List String)
    (toks : List String) (st : ParseResult) :
    ∀ r, parseLoop defs true toks st = .ok r →
      ∀ l1, toks = l1 ++ "--" :: l2 → "--" ∉ l1 →
        r.remaining = l2 ∧ r.optionTokens + r.arguments.length
          = st.optionTokens + st.arguments.length + l1.length := by
  induction toks, st using parseLoop.induct defs true with
  | case1 st =>
    intro r h l1 heq hn
    simp at heq
  | case2 tok rest st hcl =>
    intro r h l1 heq hn
    simp only [parseLoop, hcl] at h
    cases h
    cases l1 with
    | nil =>
      simp at heq
      simp [heq]
    | cons a l1t =>
      obtain ⟨-, htok⟩ := classify_sep_inv _ _ _ _ hcl
      simp at heq
      obtain ⟨ha, -⟩ := heq
      rw [htok] at ha
      exact (hn (ha ▸ List.mem_cons_self a l1t)).elim
  | case3 tok rest st e hcl =>
    intro r h l1 heq hn
    simp only [parseLoop, hcl] at h
    cases h
  | case4 tok rest st hcl ih =>
    intro r h l1 heq hn
    cases l1 with
    | nil =>
      simp at heq
      rw [heq.1] at hcl
      rw [classify_sepTok] at hcl
      cases hcl
    | cons a l1t =>
      simp at heq
      obtain ⟨rfl, hrest⟩ := heq
      subst hrest
      simp only [parseLoop, hcl] at h
      obtain ⟨h1, h2⟩ := ih r h l1t rfl (fun hm => hn (List.mem_cons_of_mem _ hm))
      refine ⟨h1, ?_⟩
      simp at h2
      simp [h2]
      omega
  | case5 tok rest st k v hcl ih =>
    intro r h l1 heq hn
    cases l1 with
    | nil =>
      simp at heq
      rw [heq.1] at hcl
      rw [classify_sepTok] at hcl
      cases hcl
    | cons a l1t =>
      simp at heq
      obtain ⟨rfl, hrest⟩ := heq
      subst hrest
      simp only [parseLoop, hcl] at h
      obtain ⟨h1, h2⟩ := ih r h l1t rfl (fun hm => hn (List.mem_cons_of_mem _ hm))
      refine ⟨h1, ?_⟩
      simp at h2
      simp [h2]
      omega
  | case6 tok st k v hcl =>
    intro r h l1 heq hn
    obtain ⟨hhd, -⟩ := classify_consume _ _ _ _ _ _ hcl
    simp at hhd
  | case7 tok st k v w t hcl ih =>
    intro r h l1 heq hn
    obtain ⟨hhd, hv⟩ := classify_consume _ _ _ _ _ _ hcl
    cases l1 with
    | nil =>
      simp at heq
      rw [heq.1] at hcl
      rw [classify_sepTok] at hcl
      cases hcl
    | cons a l1t =>
      simp at heq
      obtain ⟨rfl, hrest⟩ := heq
      cases l1t with
      | nil =>
        simp at hrest
        obtain ⟨hw, -⟩ := hrest
        simp at hhd
        subst hw
        subst hhd
        exact absurd rfl hv
      | cons b l1tt =>
        simp at hrest
        obtain ⟨rfl, hrest2⟩ := hrest
        subst hrest2
        simp only [parseLoop, hcl] at h
        obtain ⟨h1, h2⟩ := ih r h l1tt rfl
          (fun hm => hn (List.mem_cons_of_mem _ (List.mem_cons_of_mem _ hm)))
        refine ⟨h1, ?_⟩
        simp at h2
        simp [h2]
        omega

end ArgParse

namespace ArgParse

/-- The constructor's duplicate scan finds nothing iff the short aliases
are pairwise distinct. -/
lemma findDup_none_iff (defs : List OptionDef) :
    findDup defs = none ↔
      List.Pairwise (fun a b => a.short_name ≠ b.short_name) defs := by
  induction defs with
  | nil => simp [findDup]
  | cons d rest ih =>
    constructor
    · intro h
      cases hf : rest.find? (fun o => o.short_name == d.short_name) with
      | some o => simp [findDup, hf] at h
      | none =>
        simp [findDup, hf] at h
        refine List.Pairwise.cons ?_ (ih.mp h)
        intro o ho hso
        have := List.find?_eq_none.mp hf o ho
        simp at this
        exact this hso.symm
    · intro h
      have hf : rest.find? (fun o => o.short_name == d.short_name) = none := by
        apply List.find?_eq_none.mpr
        intro o ho
        simp
        exact fun hso => (List.pairwise_cons.mp h).1 o ho hso.symm
      simp [findDup, hf]
      exact ih.mpr (List.pairwise_cons.mp h).2
  
/-- When the duplicate scan reports a conflict, the reported alias and
full names come from two distinct entries of the list, the second
occurring after the first, and both share the reported alias. -/
lemma findDup_some (defs : List OptionDef) (e : ConfigErr)
    (h : findDup defs = some e) :
    ∃ pre mid post d1 d2,
      defs = pre ++ d1 :: mid ++ d2 :: post ∧
      d1.short_name = e.shared ∧ d2.short_name = e.shared ∧
      d1.full_name = e.first ∧ d2.full_name = e.second := by
  induction defs with
  | nil => simp [findDup] at h
  | cons d rest ih =>
    cases hf : rest.find? (fun o => o.short_name == d.short_name) with
    | some o =>
      simp [findDup, hf] at h
      have ho := List.mem_of_find?_eq_some hf
      have hs := List.find?_some hf
      simp at hs
      obtain ⟨mid, post, rfl⟩ := List.append_of_mem ho
      refine ⟨[], mid, post, d, o, by simp, ?_, ?_, ?_, ?_⟩ <;>
        simp [← h, hs]
    | none =>
      simp [findDup, hf] at h
      obtain ⟨pre, mid, post, d1, d2, hdecomp, h1, h2, h3, h4⟩ := ih h
      exact ⟨d :: pre, mid, post, d1, d2, by simp [hdecomp], h1, h2, h3, h4⟩

end ArgParse

namespace ArgParse

/-- Sample registry used by witnesses: the spec's section-8 scenario
definitions. -/
def sampleDefs : List OptionDef :=
  [⟨"verbose", 'v', "", false⟩, ⟨"output", 'o', "", true⟩]

/-- C5: for every option definition list with pairwise-distinct short
aliases, construction succeeds and stores the list; for every list in
which two definitions share a short alias, construction fails with a
configuration error identifying both conflicting full names and the
shared alias. -/
theorem construct_short_alias_check (defs : List OptionDef) :
    (List.Pairwise (fun a b => a.short_name ≠ b.short_name) defs →
      construct defs = .ok defs)
    ∧ (¬ List.Pairwise (fun a b => a.short_name ≠ b.short_name) defs →
      ∃ pre mid post d1 d2,
        defs = pre ++ d1 :: mid ++ d2 :: post ∧
        d2.short_name = d1.short_name ∧
        construct defs = .error ⟨d1.short_name, d1.full_name, d2.full_name⟩) := by
  constructor
  · intro h
    unfold construct
    rw [(findDup_none_iff defs).mpr h]
  · intro h
    cases hf : findDup defs with
    | none => exact absurd ((findDup_none_iff defs).mp hf) h
    | some e =>
      obtain ⟨pre, mid, post, d1, d2, hdec, h1, h2, h3, h4⟩ := findDup_some defs e hf
      refine ⟨pre, mid, post, d1, d2, hdec, by rw [h1, h2], ?_⟩
      unfold construct
      rw [hf]
      cases e
      simp at h1 h2 h3 h4
      rw [h1, h3, h4]

/-- Witness for C5: the spec's two-definition registry has distinct
short aliases, so construction succeeds and stores the list. -/
theorem construct_short_alias_check_witness :
    construct sampleDefs = .ok sampleDefs :=
  (construct_short_alias_check sampleDefs).1 (by decide)

/-- C1 (amended): on every successful parse, tokens consumed as options
or option values, plus positional tokens, plus remaining tokens, plus
one for the executable path, plus one for the `--` separator token when
the remaining-arguments branch was taken, equals the total input
length. -/
theorem parse_token_accounting (defs : List OptionDef) (accept : Bool)
    (exe : String) (toks : List String) (r : ParseResult)
    (h : parse defs accept (exe :: toks) = .ok r) :
    claimSum r + (if r.sepConsumed then 1 else 0) = (exe :: toks).length := by
  have hc := parseLoop_count defs accept toks initResult r rfl rfl h
  simp [initResult] at hc
  simp [claimSum]
  omega

/-- Witness for C1's amended accounting at a concrete input containing
the separator. -/
theorem parse_token_accounting_witness :
    claimSum ⟨[], [], ["a"], 0, true⟩
      + (if (ParseResult.mk [] [] ["a"] 0 true).sepConsumed then 1 else 0)
      = (["prog", "--", "a"] : List String).length :=
  parse_token_accounting [] true "prog" ["--", "a"] ⟨[], [], ["a"], 0, true⟩
    (by rfl)

/-- Counterexample to C1 as stated: on the input `prog --` the parse
succeeds, the consumed `--` separator token lies in no output
collection, and the claim's sum falls one short of the input length. -/
theorem parse_token_accounting_cex :
    parse [] true ["prog", "--"] = .ok ⟨[], [], [], 0, true⟩
    ∧ claimSum ⟨[], [], [], 0, true⟩ ≠ (["prog", "--"] : List String).length := by
  exact ⟨by rfl, by decide⟩

/-- C2: when the input after the executable path splits as
`l1 ++ "--" :: l2` with no earlier `--`, a successful parse with
remaining arguments accepted moves exactly `l2`, verbatim and in order,
into the remaining sequence, and classifies as options, option values
or positionals exactly the tokens of `l1`. -/
theorem parse_remaining_after_sep (defs : List OptionDef) (exe : String)
    (l1 l2 : List String) (r : ParseResult)
    (hn : "--" ∉ l1)
    (h : parse defs true (exe :: (l1 ++ "--" :: l2)) = .ok r) :
    r.remaining = l2
    ∧ r.optionTokens + r.arguments.length = l1.length := by
  have := parseLoop_sep defs l2 (l1 ++ "--" :: l2) initResult r h l1 rfl hn
  simpa [initResult] using this

/-- Witness for C2: the spec's section-8 scenario. -/
theorem parse_remaining_after_sep_witness :
    (ParseResult.mk [("verbose", ""), ("output", "out.txt")]
        ["file1", "file2"] ["extra1", "extra2"] 2 true).remaining
      = ["extra1", "extra2"]
    ∧ (ParseResult.mk [("verbose", ""), ("output", "out.txt")]
        ["file1", "file2"] ["extra1", "extra2"] 2 true).optionTokens
      + (ParseResult.mk [("verbose", ""), ("output", "out.txt")]
        ["file1", "file2"] ["extra1", "extra2"] 2 true).arguments.length
      = (["-v", "--output=out.txt", "file1", "file2"] : List String).length :=
  parse_remaining_after_sep sampleDefs "prog"
    ["-v", "--output=out.txt", "file1", "file2"] ["extra1", "extra2"]
    ⟨[("verbose", ""), ("output", "out.txt")], ["file1", "file2"],
      ["extra1", "extra2"], 2, true⟩
    (by decide) (by rfl)

end ArgParse

namespace ArgParse

/-- Retrieval step of the integer accessor: with the key present, the
conversion runs on the stored string. -/
lemma asIntKey_eq (r : ParseResult) (key : String) (signed : Bool)
    (lo hi : Int) (s : String) (hs : mapFind r.options key = some s) :
    asIntKey r key signed lo hi = convertInt signed lo hi s := by
  unfold asIntKey asStringKey
  rw [hs]

/-- C6 (amended): integer access on an existing key fails with
`InvalidNumericValue` exactly when the stored string does not begin with
a valid integer pattern (optional minus for signed targets, then at
least one digit); and on a stored string that is entirely a valid
in-range base-10 integer it returns that integer. -/
theorem as_int_conversion (r : ParseResult) (key s : String)
    (signed : Bool) (lo hi : Int)
    (hs : mapFind r.options key = some s) :
    (asIntKey r key signed lo hi = .error (.invalidNumeric s)
      ↔ fromCharsVal signed s.data = none)
    ∧ (∀ v : Int, fromCharsVal signed s.data = some (v, []) →
        lo ≤ v → v ≤ hi → asIntKey r key signed lo hi = .ok v) := by
  rw [asIntKey_eq r key signed lo hi s hs]
  constructor
  · constructor
    · intro h
      cases hf : fromCharsVal signed s.data with
      | none => rfl
      | some p =>
        unfold convertInt at h
        rw [hf] at h
        by_cases hr : lo ≤ p.1 ∧ p.1 ≤ hi <;> simp [hr] at h
    · intro h
      unfold convertInt
      rw [h]
  · intro v hv hlo hhi
    unfold convertInt
    rw [hv]
    simp [hlo, hhi]

/-- Witness for C6's amended round-trip: a stored `42` is returned as
the integer 42 for a 32-bit signed target. -/
theorem as_int_conversion_witness :
    asIntKey ⟨[("count", "42")], [], [], 1, false⟩ "count" true
      (-(2 ^ 31)) (2 ^ 31 - 1) = .ok 42 :=
  (as_int_conversion ⟨[("count", "42")], [], [], 1, false⟩ "count" "42"
    true (-(2 ^ 31)) (2 ^ 31 - 1) (by decide)).2 42 (by decide)
    (by decide) (by decide)

/-- Counterexample to C6 as stated: `42abc` is not a valid base-10
integer, yet integer access does not fail — `from_chars` parses the
maximal digit run and the trailing garbage is never checked, so the
access returns 42. -/
theorem as_int_conversion_cex :
    isValidInt true (-(2 ^ 31)) (2 ^ 31 - 1) "42abc" = false
    ∧ parse [⟨"count", 'c', "", true⟩] true ["prog", "--count=42abc"]
      = .ok ⟨[("count", "42abc")], [], [], 1, false⟩
    ∧ asIntKey ⟨[("count", "42abc")], [], [], 1, false⟩ "count" true
      (-(2 ^ 31)) (2 ^ 31 - 1) = .ok 42 := by
  refine ⟨by decide, by rfl, by rfl⟩

/-- C10: integer access on an existing key whose stored string is a
syntactically valid base-10 integer that does not fit the requested
range does not fail and returns 0: the out-of-range condition reported
by `from_chars` is never checked and the result variable keeps its
zero initialisation. -/
theorem as_int_out_of_range_zero (r : ParseResult) (key : String)
    (signed : Bool) (lo hi : Int) (s : String) (v : Int)
    (hs : mapFind r.options key = some s)
    (hp : fromCharsVal signed s.data = some (v, []))
    (hout : v < lo ∨ hi < v) :
    asIntKey r key signed lo hi = .ok 0 := by
  rw [asIntKey_eq r key signed lo hi s hs]
  unfold convertInt
  rw [hp]
  have hno : ¬(lo ≤ v ∧ v ≤ hi) := by omega
  simp [hno]

/-- Witness for C10: `300` stored for an 8-bit signed target yields 0. -/
theorem as_int_out_of_range_zero_witness :
    asIntKey ⟨[("count", "300")], [], [], 1, false⟩ "count" true
      (-128) 127 = .ok 0 :=
  as_int_out_of_range_zero ⟨[("count", "300")], [], [], 1, false⟩ "count"
    true (-128) 127 "300" 300 (by decide) (by decide) (by decide)

/-- C7 (amended): the defaulted accessor returns the plain accessor's
result (propagating any failure of that accessor) when the key exists,
and the default value, never failing, when it does not — for string,
integer and boolean targets, and for both option-name keys and
positional indices. -/
theorem as_default_behaviour (r : ParseResult) (key : String) (idx : Nat)
    (signed : Bool) (lo hi : Int) (sd : String) (vd : Int) (bd : Bool) :
    (existsKey r key = false →
      asStringKeyD r key sd = .ok sd
      ∧ asIntKeyD r key signed lo hi vd = .ok vd
      ∧ asBoolKeyD r key bd = bd)
    ∧ (existsKey r key = true →
      asStringKeyD r key sd = asStringKey r key
      ∧ asIntKeyD r key signed lo hi vd = asIntKey r key signed lo hi
      ∧ asBoolKeyD r key bd = asBoolKey r key)
    ∧ (existsIdx r idx = false →
      asStringIdxD r idx sd = .ok sd
      ∧ asIntIdxD r idx signed lo hi vd = .ok vd
      ∧ asBoolIdxD r idx bd = bd)
    ∧ (existsIdx r idx = true →
      asStringIdxD r idx sd = asStringIdx r idx
      ∧ asIntIdxD r idx signed lo hi vd = asIntIdx r idx signed lo hi
      ∧ asBoolIdxD r idx bd = asBoolIdx r idx) := by
  refine ⟨?_, ?_, ?_, ?_⟩ <;> intro h <;>
    simp [asStringKeyD, asIntKeyD, asBoolKeyD, asStringIdxD, asIntIdxD,
      asBoolIdxD, h]

/-- Witness for C7's amended behaviour: on an empty parse result every
defaulted accessor returns its default. -/
theorem as_default_behaviour_witness :
    asStringKeyD ⟨[], [], [], 0, false⟩ "count" "d" = .ok "d"
    ∧ asIntKeyD ⟨[], [], [], 0, false⟩ "count" true (-10) 10 7 = .ok 7
    ∧ asBoolKeyD ⟨[], [], [], 0, false⟩ "count" false = false :=
  (as_default_behaviour ⟨[], [], [], 0, false⟩ "count" 0 true (-10) 10
    "d" 7 false).1 (by decide)

/-- Counterexample to C7 as stated ("never fails"): for a key that
exists with stored string `abc`, the defaulted integer accessor calls
the plain integer accessor, which fails with `InvalidNumericValue`. -/
theorem as_default_behaviour_cex :
    existsKey ⟨[("count", "abc")], [], [], 1, false⟩ "count" = true
    ∧ asIntKeyD ⟨[("count", "abc")], [], [], 1, false⟩ "count" true
      (-(2 ^ 31)) (2 ^ 31 - 1) 7 = .error (.invalidNumeric "abc") := by
  refine ⟨by decide, by rfl⟩

end ArgParse

namespace ArgParse

/-- `shortStep` never classifies a token as positional. -/
lemma shortStep_ne_pos (defs : List OptionDef) (c : Char)
    (next? : Option String) : shortStep defs c next? ≠ .pos := by
  cases hf : findShort defs c with
  | none => simp [shortStep, hf]
  | some d =>
    by_cases he : d.expect_value
    · cases next? with
      | none => simp [shortStep, hf, he, valueFromNext]
      | some v =>
        by_cases hv : charAt v.data 0 = '-' <;>
          simp [shortStep, hf, he, valueFromNext, hv]
    · simp [shortStep, hf, he]

/-- A token whose first character is `-` and whose second character is
neither `-` nor absent is classified through `shortStep` on that second
character alone. -/
lemma classify_short_of_data (defs : List OptionDef) (accept : Bool)
    (s : String) (c : Char) (extra : List Char) (next? : Option String)
    (hdata : s.data = '-' :: c :: extra) (hc : c ≠ '-') :
    classify defs accept s next? = shortStep defs c next? := by
  unfold classify
  rw [hdata]
  rw [if_pos (show charAt ('-' :: c :: extra) 0 = '-' from rfl)]
  rw [if_neg (show ¬charAt ('-' :: c :: extra) 1 = '-' from hc)]
  rfl

/-- The two-character token `-c`, for `c` other than `-`, is classified
through `shortStep` on `c`. -/
lemma classify_short_tok (defs : List OptionDef) (accept : Bool) (c : Char)
    (next? : Option String) (hc : c ≠ '-') :
    classify defs accept (String.mk ['-', c]) next? = shortStep defs c next? :=
  classify_short_of_data defs accept (String.mk ['-', c]) c [] next? rfl hc

/-- C9: a token beginning with `-` whose second character `c` is not `-`
is handled purely by `c` — any further characters are ignored, so the
whole parse behaves exactly as if the token were the two-character `-c`.
This holds at any point of the scan (any loop state and trailing
tokens). -/
theorem short_ignores_extra_chars (defs : List OptionDef) (accept : Bool)
    (s : String) (c : Char) (extra : List Char) (tl : List String)
    (st : ParseResult) (hdata : s.data = '-' :: c :: extra) (hc : c ≠ '-') :
    parseLoop defs accept (s :: tl) st
      = parseLoop defs accept (String.mk ['-', c] :: tl) st := by
  have h1 := classify_short_of_data defs accept s c extra tl.head? hdata hc
  have h2 := classify_short_tok defs accept c tl.head? hc
  cases hss : shortStep defs c tl.head? with
  | sep => exact absurd hss (shortStep_ne_sep _ _ _)
  | pos => exact absurd hss (shortStep_ne_pos _ _ _)
  | err e =>
    rw [hss] at h1 h2
    simp only [parseLoop, h1, h2]
  | opt k v b =>
    rw [hss] at h1 h2
    cases b <;> cases tl <;> simp only [parseLoop, h1, h2]

/-- Witness for C9: with `output` registered under short alias `o`, the
token `-out` behaves exactly like `-o` (here both consume `x.txt` as
the value). -/
theorem short_ignores_extra_chars_witness :
    parseLoop [⟨"output", 'o', "", true⟩] true ["-out", "x.txt"] initResult
      = parseLoop [⟨"output", 'o', "", true⟩] true
          [String.mk ['-', 'o'], "x.txt"] initResult :=
  short_ignores_extra_chars [⟨"output", 'o', "", true⟩] true "-out" 'o'
    ['u', 't'] ["x.txt"] initResult (by rfl) (by decide)

/-- C8 (amended): a token that is exactly `-` is not positional: the
code reads the terminator as its second character and treats it as a
short option with the NUL alias, so with no NUL-alias definition
registered the scan aborts with `UnrecognizedOption` wherever the token
occurs (any loop state, any trailing tokens). -/
theorem single_dash_short_nul (defs : List OptionDef) (accept : Bool)
    (rest : List String) (st : ParseResult)
    (h : findShort defs (Char.ofNat 0) = none) :
    parseLoop defs accept ("-" :: rest) st
      = .error (.unrecognizedShort (Char.ofNat 0)) := by
  have hcl : classify defs accept "-" rest.head?
      = shortStep defs (Char.ofNat 0) rest.head? := rfl
  rw [show shortStep defs (Char.ofNat 0) rest.head?
      = .err (.unrecognizedShort (Char.ofNat 0)) by
    unfold shortStep
    rw [h]] at hcl
  simp only [parseLoop, hcl]

/-- Witness for C8's amended behaviour at a concrete registry. -/
theorem single_dash_short_nul_witness :
    parseLoop [⟨"verbose", 'v', "", false⟩] true ["-"] initResult
      = .error (.unrecognizedShort (Char.ofNat 0)) :=
  single_dash_short_nul [⟨"verbose", 'v', "", false⟩] true [] initResult
    (by decide)

/-- Counterexample to C8 as stated: on `prog -` the parse does not
append `-` to the positional sequence — it fails with
`UnrecognizedOption` for the NUL alias, and in particular does not
produce the result the claim predicts. -/
theorem single_dash_short_nul_cex :
    parse [⟨"verbose", 'v', "", false⟩] true ["prog", "-"]
      = .error (.unrecognizedShort (Char.ofNat 0))
    ∧ parse [⟨"verbose", 'v', "", false⟩] true ["prog", "-"]
      ≠ .ok ⟨[], ["-"], [], 0, false⟩ := by
  refine ⟨by rfl, fun hcontra => ?_⟩
  exact absurd
    (show (Except.error (ArgErr.unrecognizedShort (Char.ofNat 0))
        : Except ArgErr ParseResult)
      = .ok ⟨[], ["-"], [], 0, false⟩ from hcontra)
    (by simp)

end ArgParse

namespace ArgParse

/-- A full-name lookup hit matches the requested name exactly. -/
lemma findFull_name (defs : List OptionDef) (name : String) (d : OptionDef)
    (h : findFull defs name = some d) : d.full_name = name := by
  have hb := List.find?_some h
  simpa using hb

/-- Character list of a `--name=value` token. -/
lemma long_attached_data (name value : String) :
    ("--" ++ name ++ "=" ++ value).data
      = '-' :: '-' :: (name.data ++ '=' :: value.data) := by
  have h1 : ("--" : String).data = ['-', '-'] := rfl
  have h2 : ("=" : String).data = ['='] := rfl
  simp [String.data_append, h1, h2]

/-- A `--name=value` token for a registered value-expecting option whose
name contains no `=` classifies as that option with the attached value,
consuming no further token. -/
lemma classify_long_attached (defs : List OptionDef) (accept : Bool)
    (name value : String) (d : OptionDef) (next? : Option String)
    (hfind : findFull defs name = some d) (hexp : d.expect_value = true)
    (heq : '=' ∉ name.data) :
    classify defs accept ("--" ++ name ++ "=" ++ value) next?
      = .opt d.full_name value false := by
  unfold classify
  rw [long_attached_data name value]
  rw [if_pos (show charAt ('-' :: '-' :: (name.data ++ '=' :: value.data)) 0
      = '-' from rfl)]
  rw [if_pos (show charAt ('-' :: '-' :: (name.data ++ '=' :: value.data)) 1
      = '-' from rfl)]
  have hnn : ¬(List.drop 2 ('-' :: '-' :: (name.data ++ '=' :: value.data)) = []
      ∧ accept = true) := by simp
  rw [if_neg hnn]
  unfold longStep
  rw [show List.drop 2 ('-' :: '-' :: (name.data ++ '=' :: value.data))
      = name.data ++ '=' :: value.data from rfl]
  rw [splitEq_append name.data value.data heq]
  simp [mk_data, hfind, hexp]

/-- A bare `--name` token for a registered value-expecting option whose
nonempty name contains no `=` defers to the next-token value rule. -/
lemma classify_long_plain (defs : List OptionDef) (accept : Bool)
    (name : String) (d : OptionDef) (next? : Option String)
    (hfind : findFull defs name = some d) (hexp : d.expect_value = true)
    (hne : name ≠ "") (heq : '=' ∉ name.data) :
    classify defs accept ("--" ++ name) next?
      = valueFromNext next? d (.missingValueLong name) := by
  have hdata : ("--" ++ name).data = '-' :: '-' :: name.data := by
    have h1 : ("--" : String).data = ['-', '-'] := rfl
    simp [String.data_append, h1]
  unfold classify
  rw [hdata]
  rw [if_pos (show charAt ('-' :: '-' :: name.data) 0 = '-' from rfl)]
  rw [if_pos (show charAt ('-' :: '-' :: name.data) 1 = '-' from rfl)]
  have hd : List.drop 2 ('-' :: '-' :: name.data) = name.data := rfl
  have hnn : ¬(List.drop 2 ('-' :: '-' :: name.data) = [] ∧ accept = true) := by
    rw [hd]
    exact fun hx => data_ne_nil name hne hx.1
  rw [if_neg hnn]
  unfold longStep
  rw [hd, splitEq_no_eq name.data heq]
  simp [mk_data, hfind, hexp]

/-- C3 (amended): for a registered value-expecting option whose name is
nonempty and contains no `=`, and a value whose first character is not
`-`, the forms `--name=value` and `--name value` both succeed and store
the identical value string under the key `name`. -/
theorem long_attached_next_agree (defs : List OptionDef) (accept : Bool)
    (exe name value : String) (d : OptionDef)
    (hfind : findFull defs name = some d) (hexp : d.expect_value = true)
    (hne : name ≠ "") (heq : '=' ∉ name.data)
    (hv : charAt value.data 0 ≠ '-') :
    parse defs accept [exe, "--" ++ name ++ "=" ++ value]
        = .ok ⟨[(name, value)], [], [], 1, false⟩
    ∧ parse defs accept [exe, "--" ++ name, value]
        = .ok ⟨[(name, value)], [], [], 2, false⟩
    ∧ mapFind [(name, value)] name = some value := by
  have hdn : d.full_name = name := findFull_name defs name d hfind
  refine ⟨?_, ?_, by simp [mapFind]⟩
  · show parseLoop defs accept ["--" ++ name ++ "=" ++ value] initResult = _
    have hcl := classify_long_attached defs accept name value d none hfind hexp heq
    rw [hdn] at hcl
    simp only [parseLoop, List.head?, hcl]
    rfl
  · show parseLoop defs accept ["--" ++ name, value] initResult = _
    have hcl := classify_long_plain defs accept name d (some value) hfind hexp hne heq
    have hvn : valueFromNext (some value) d (.missingValueLong name)
        = .opt d.full_name value true := by
      show (if charAt value.data 0 = '-'
          then Step.err (ArgErr.missingValueLong name)
          else Step.opt d.full_name value true)
        = Step.opt d.full_name value true
      rw [if_neg hv]
    rw [hvn, hdn] at hcl
    simp only [parseLoop, List.head?, hcl]
    rfl

/-- Witness for C3 at the spec's own example option. -/
theorem long_attached_next_agree_witness :
    parse sampleDefs true ["prog", "--output=out.txt"]
        = .ok ⟨[("output", "out.txt")], [], [], 1, false⟩
    ∧ parse sampleDefs true ["prog", "--output", "out.txt"]
        = .ok ⟨[("output", "out.txt")], [], [], 2, false⟩
    ∧ mapFind [("output", "out.txt")] "output" = some "out.txt" :=
  long_attached_next_agree sampleDefs true "prog" "output" "out.txt"
    ⟨"output", 'o', "", true⟩ (by decide) (by decide) (by decide)
    (by decide) (by decide)

/-- Counterexample to C3 as stated, at the registered (degenerate but
constructible) option whose full name is the empty string: the attached
form `--=v` stores `v` under the empty name, while the two-token form
starts with the bare `--` separator, so nothing is stored at all. -/
theorem long_attached_next_agree_cex :
    parse [⟨"", 'x', "", true⟩] true ["prog", "--=v"]
        = .ok ⟨[("", "v")], [], [], 1, false⟩
    ∧ parse [⟨"", 'x', "", true⟩] true ["prog", "--", "v"]
        = .ok ⟨[], [], ["v"], 0, true⟩
    ∧ mapFind [("", "v")] "" = some "v"
    ∧ mapFind ([] : List (String × String)) "" = none := by
  refine ⟨by rfl, by rfl, by decide, by decide⟩

/-- C4: a registered value-expecting option token with no attached
`=value` whose next token is absent or begins with `-` makes the parse
fail with the missing-value error, never consuming that next token —
in both the long form `--name` and the short form `-c`. -/
theorem missing_value_error (defs : List OptionDef) (accept : Bool)
    (exe name : String) (c : Char) (dl ds : OptionDef) (rest : List String)
    (hfl : findFull defs name = some dl) (hel : dl.expect_value = true)
    (hne : name ≠ "") (heq : '=' ∉ name.data)
    (hfs : findShort defs c = some ds) (hes : ds.expect_value = true)
    (hc : c ≠ '-')
    (hrest : rest = [] ∨ ∃ v t, rest = v :: t ∧ charAt v.data 0 = '-') :
    parse defs accept (exe :: ("--" ++ name) :: rest)
        = .error (.missingValueLong name)
    ∧ parse defs accept (exe :: String.mk ['-', c] :: rest)
        = .error (.missingValueShort c) := by
  have hvfn : ∀ (d : OptionDef) (e : ArgErr),
      valueFromNext rest.head? d e = .err e := by
    intro d e
    rcases hrest with rfl | ⟨v, t, rfl, hdash⟩
    · rfl
    · show (if charAt v.data 0 = '-' then Step.err e
          else Step.opt d.full_name v true) = Step.err e
      rw [if_pos hdash]
  constructor
  · show parseLoop defs accept (("--" ++ name) :: rest) initResult = _
    have hcl := classify_long_plain defs accept name dl rest.head? hfl hel hne heq
    rw [hvfn dl (.missingValueLong name)] at hcl
    simp only [parseLoop, hcl]
  · show parseLoop defs accept (String.mk ['-', c] :: rest) initResult = _
    have hcl := classify_short_tok defs accept c rest.head? hc
    rw [show shortStep defs c rest.head? = .err (.missingValueShort c) by
      unfold shortStep
      rw [hfs]
      simp only [hes, if_true]
      exact hvfn ds (.missingValueShort c)] at hcl
    simp only [parseLoop, hcl]

/-- Witness for C4: `--output -v` and `-o -v` both fail with the
missing-value error, and `-v` is not consumed as a value. -/
theorem missing_value_error_witness :
    parse sampleDefs true ["prog", "--output", "-v"]
        = .error (.missingValueLong "output")
    ∧ parse sampleDefs true ["prog", String.mk ['-', 'o'], "-v"]
        = .error (.missingValueShort 'o') :=
  missing_value_error sampleDefs true "prog" "output" 'o'
    ⟨"output", 'o', "", true⟩ ⟨"output", 'o', "", true⟩ ["-v"]
    (by decide) (by decide) (by decide) (by decide) (by decide) (by decide)
    (by decide) (Or.inr ⟨"-v", [], rfl, by decide⟩)

end ArgParse
